import Mathlib

/-!
Shallow embedding of the musikbox playback session (`src/main.rs`).

The session state machine is embedded as pure Lean functions:
machine integers (`usize`) become `Nat` with explicit wraparound at
`2 ^ 64` where underflow can occur; fallible / panicking code paths
return `Option` with `none` standing for a Rust panic; the external
gstreamer engine is represented by its observable inputs (position,
duration, current URI) and the commands the session issues to it.
-/

namespace Musikbox

/-- The usize modulus, `2 ^ 64`. -/
def USIZE : Nat := 18446744073709551616

/-- Wrapping usize subtraction `a - b` for `b ≤ USIZE`, release-profile
semantics (a debug build aborts on underflow instead; either way an
underflowed value is out of range for list indexing). -/
def usizeSub (a b : Nat) : Nat := (a + USIZE - b) % USIZE

/-- The focus state (`enum CursorState` in the source): which UI region
receives region-scoped key input. -/
inductive CursorState
  | musicList
  | volume
  | control
  | search
  deriving DecidableEq

/-- `CursorState::overflowing_next`: cyclic successor of the focus state. -/
def overflowing_next : CursorState → CursorState
  | .musicList => .volume
  | .volume => .control
  | .control => .search
  | .search => .musicList

/-- `CursorState::default`: the initial focus state. -/
def cursorDefault : CursorState := CursorState.musicList

/-- Global key tier (the outer `match key.code` in `Instance::run`):
`Tab` advances focus, every other key leaves the focus state unchanged. -/
inductive GKey
  | quit
  | tab
  | space
  | other
  deriving DecidableEq

/-- Focus state after one key event: only `Tab` calls `overflowing_next`;
no other arm of the dispatch mutates `cursor_state`. -/
def cursorAfterKey (c : CursorState) : GKey → CursorState
  | .tab => overflowing_next c
  | _ => c

/-- `struct AutoplayState`: the four independent autoplay toggles, in
source order.  The source calls the second field `repeat`; that is a
reserved token in Lean, so it is embedded as `repeatTrack`. -/
structure AutoplayState where
  repeat_list : Bool
  repeatTrack : Bool
  sequential : Bool
  shuffle : Bool
  deriving DecidableEq

/-- `format!("file://{}", path)`: the URI derived from a path. -/
def mkUri (path : String) : String := "file://" ++ path

/-- `Instance::is_paused`: two successive position samples; any missing
sample, or two equal samples, count as paused. -/
def is_paused (s1 s2 : Option Nat) : Bool :=
  match s1 with
  | some position =>
    match s2 with
    | some new_pos => position == new_pos
    | none => true
  | none => true

/-- Engine commands the `Space` handler can issue. -/
inductive EngineCmd
  | playC
  | pauseC
  deriving DecidableEq

/-- The `Space` key handler: `if self.is_paused() { play() } else { pause() }`. -/
def spaceToggle (s1 s2 : Option Nat) : EngineCmd :=
  if is_paused s1 s2 then .playC else .pauseC

/-- Observable side effects of `Instance::play_path`. -/
inductive PEffect
  | setUri (u : String)
  | playCmd
  | sleepMs (ms : Nat)
  | setVol (v : ℚ)
  deriving DecidableEq

/-- `Instance::play_path`: sets the URI and plays; when a startup volume
override is configured it always sleeps 500 ms, and then writes the
volume only if the `Once` has not fired yet.  State is the "`Once` has
fired" flag; the effect list records the engine interaction in order. -/
def play_path (volume : Option ℚ) (volume_once : Bool) (path : String) :
    Bool × List PEffect :=
  match volume with
  | none => (volume_once, [.setUri (mkUri path), .playCmd])
  | some init_volume =>
    if volume_once then
      (volume_once, [.setUri (mkUri path), .playCmd, .sleepMs 500])
    else
      (true, [.setUri (mkUri path), .playCmd, .sleepMs 500, .setVol init_volume])

/-- Runs a sequence of `play_path` calls, threading the `Once` flag and
concatenating the engine effects. -/
def runPlays (volume : Option ℚ) : Bool → List String → Bool × List PEffect
  | once, [] => (once, [])
  | once, p :: ps =>
    let fst := play_path volume once p
    let rest := runPlays volume fst.1 ps
    (rest.1, fst.2 ++ rest.2)

/-- Recognizes a volume write. -/
def isSetVol : PEffect → Bool
  | .setVol _ => true
  | _ => false

/-- Recognizes a settle-delay sleep. -/
def isSleep : PEffect → Bool
  | .sleepMs _ => true
  | _ => false

/-- `Instance::current_progress`: `position / duration` when both are
available, `0` otherwise.  Modelled over `ℚ` (second counts are far below
`2 ^ 53`, where `f64` division compares to `1.0` exactly as the rational
does; `d = 0` yields `inf`/`NaN` in `f64` and `0` here, never `1`). -/
def current_progress (pos dur : Option Nat) : ℚ :=
  match pos with
  | some position =>
    match dur with
    | some duration => (position : ℚ) / (duration : ℚ)
    | none => 0
  | none => 0

/-- List element read used throughout: `l[i]` with `""` out of range
(every use below is guarded to be in range). -/
def nthS (l : List String) (i : Nat) : String := l.getD i ""

/-- `self.files.iter().enumerate().find(p)` of the sequential branch:
first index (counting from `i0`) whose element satisfies `p`. -/
def enumFind (p : String → Bool) : List String → Nat → Option Nat
  | [], _ => none
  | f :: fs, i => if p f then some i else enumFind p fs (i + 1)

/-- The sequential completion branch (lines 333–351): find the index of
the currently loaded URI, advance by one, wrap to `0` only with
`repeat_list`, and load when in range.  `none` is a panic (the source
unwraps both the engine URI and the find result); `some none` means no
track is loaded; `some (some t)` loads track `t`. -/
def sequentialAdvance (files : List String) (repeat_list : Bool)
    (uri : Option String) : Option (Option Nat) :=
  match uri with
  | none => none
  | some u =>
    match enumFind (fun file => mkUri file == u) files 0 with
    | none => none
    | some i =>
      let track := i + 1
      let track := if files.length ≤ track && repeat_list then 0 else track
      if track < files.length then some (some track) else some none

/-- One resolved completion action. -/
inductive CAction
  | replay
  | seqLoad (i : Nat)
  | seqStop
  | shuffleLoad (i : Nat)
  | exitLoop
  | idle
  deriving DecidableEq

/-- Lifts a `sequentialAdvance` result into a completion action,
preserving the panic case. -/
def seqLift : Option (Option Nat) → Option CAction
  | none => none
  | some (some t) => some (.seqLoad t)
  | some none => some .seqStop

/-- The completion-event body (lines 331–357), executed when the progress
ratio equals `1`: toggles are tried top-down, first match wins.  `r` is
the value drawn from `rand::random::<usize>()`; `none` is a panic
(the shuffle branch computes `r % 0` on an empty list). -/
def completionStep (ap : AutoplayState) (no_remain : Bool)
    (files : List String) (uri : Option String) (r : Nat) : Option CAction :=
  if ap.repeatTrack then some .replay
  else if ap.sequential then seqLift (sequentialAdvance files ap.repeat_list uri)
  else if ap.shuffle then
    if files.length = 0 then none
    else some (.shuffleLoad (r % files.length))
  else if no_remain then some .exitLoop
  else some .idle

/-- The completion check of one loop iteration (line 330): the body runs
exactly when `current_progress` equals `1`; otherwise nothing happens. -/
def completionPhase (pos dur : Option Nat) (ap : AutoplayState)
    (no_remain : Bool) (files : List String) (uri : Option String)
    (r : Nat) : Option CAction :=
  if current_progress pos dur = 1 then completionStep ap no_remain files uri r
  else some .idle

/-- Keys handled by the `CursorState::MusicList` arm. -/
inductive MKey
  | down
  | up
  | left
  | right
  | home
  | kEnd
  | keyr
  | keyRBig
  | enter
  deriving DecidableEq

/-- The `CursorState::MusicList` key dispatch (lines 380–444).  Result is
`none` on a panic (`r % 0` for the random keys on an empty list, or an
out-of-bounds `self.files[track]` on Enter); otherwise
`some (newSelection, playedIndex)`.  The unguarded `self.files.len() - 1`
occurrences (`Up`/`Left` with no selection, `End`) use wrapping usize
subtraction. -/
def musicDispatch (files : List String) (sel : Option Nat) (r : Nat) :
    MKey → Option (Option Nat × Option Nat)
  | .down =>
    match sel with
    | some i =>
      if 1 < files.length then some (some ((i + 1) % files.length), none)
      else some (some i, none)
    | none => some (some 0, none)
  | .up =>
    match sel with
    | some i =>
      if 1 < files.length then
        some (some (if 0 < i then (i - 1) % files.length else files.length - 1),
          none)
      else some (some i, none)
    | none => some (some (usizeSub files.length 1), none)
  | .left =>
    match sel with
    | some i =>
      if 5 < files.length then
        some (some (if 4 < i then (i - 5) % files.length else files.length - 1),
          none)
      else some (some i, none)
    | none => some (some (usizeSub files.length 1), none)
  | .right =>
    match sel with
    | some i =>
      if 5 < files.length then some (some ((i + 5) % files.length), none)
      else some (some i, none)
    | none => some (some 0, none)
  | .home => some (some 0, none)
  | .kEnd => some (some (usizeSub files.length 1), none)
  | .keyr =>
    if files.length = 0 then none
    else some (some (r % files.length), none)
  | .keyRBig =>
    if files.length = 0 then none
    else some (some (r % files.length), some (r % files.length))
  | .enter =>
    match sel with
    | none => some (none, none)
    | some i =>
      if i < files.length then some (some i, some i) else none

/-- Character-list prefix test: `leadMatch needle hay` holds when `hay`
starts with `needle`. -/
def leadMatch : List Char → List Char → Bool
  | [], _ => true
  | _ :: _, [] => false
  | c :: cs, d :: ds => c == d && leadMatch cs ds

/-- Contiguous-substring test on character lists, the meaning of Rust's
`str::contains` for plain (non-pattern) needles. -/
def hasSub (needle : List Char) : List Char → Bool
  | [] => needle.isEmpty
  | d :: ds => leadMatch needle (d :: ds) || hasSub needle ds

/-- Character-wise lowercasing of a string (Rust's `str::to_lowercase`;
coincides on ASCII, which is all the comparison below relies on). -/
def lowerChars (s : String) : List Char := s.data.map Char.toLower

/-- The search predicate of the confirm handler:
`file.to_lowercase().contains(&search.to_lowercase())`. -/
def searchPred (buf : String) (file : String) : Bool :=
  hasSub (lowerChars buf) (lowerChars file)

/-- Fuel-indexed run of
`files.iter().enumerate().cycle().skip(pos).find(p)`: the element
inspected at stream position `t` is `files[t % n]`, so the run starting
at `pos` checks positions `pos, pos + 1, …`.  `none` means the scan has
not produced an answer within `fuel` steps; the real iterator is
infinite for a non-empty list, so the call terminates exactly when some
fuel yields `some`. -/
def findFuel (files : List String) (p : String → Bool) : Nat → Nat → Option Nat
  | _, 0 => none
  | pos, fuel + 1 =>
    if files.length = 0 then none
    else if p (nthS files (pos % files.length)) then some (pos % files.length)
    else findFuel files p (pos + 1) fuel

/-- Outcome of the search-confirm handler. -/
inductive SOut
  | unchanged
  | moveTo (i : Nat)
  | diverge
  deriving DecidableEq

/-- The `CursorState::Search` Enter handler (lines 527–545): scan the
cycled track list from `selected + 1`.  With an empty list the cycled
iterator is empty and `find` returns `None` at once (no change); with a
non-empty list one period of fuel decides the infinite `find`: a match
within one period is its value, and no match within one period means the
scan repeats forever (`diverge`) — see `findFuel_period_none` and
`noMatch_findFuel_none`. -/
def searchConfirm (files : List String) (sel : Option Nat) (buf : String) :
    SOut :=
  match sel with
  | none => .unchanged
  | some selected =>
    if files.length = 0 then .unchanged
    else
      match findFuel files (searchPred buf) (selected + 1) files.length with
      | some j => .moveTo j
      | none => .diverge

/-- Keys handled by the `CursorState::Control` seek arms. -/
inductive SeekKey
  | left
  | right
  | down
  | up
  | home
  | kEnd
  deriving DecidableEq

/-- The seek-adjust handlers (lines 462–506): the value passed to
`self.play.seek`, in seconds, or `none` when no seek command is issued.
`Left`/`Down` only require a position sample (`saturating_sub` is `Nat`
subtraction); `Right`/`Up` require position and duration; `Home` always
seeks to `0`; `End` requires only the duration. -/
def seekStep (pos dur : Option Nat) : SeekKey → Option Nat
  | .left =>
    match pos with
    | some position => some (Nat.max 0 (position - 1))
    | none => none
  | .right =>
    match pos with
    | some position =>
      match dur with
      | some duration => some (Nat.min duration (position + 1))
      | none => none
    | none => none
  | .down =>
    match pos with
    | some position => some (Nat.max 0 (position - 15))
    | none => none
  | .up =>
    match pos with
    | some position =>
      match dur with
      | some duration => some (Nat.min duration (position + 15))
      | none => none
    | none => none
  | .home => some 0
  | .kEnd =>
    match dur with
    | some duration => some duration
    | none => none

/-- Session state built by `Instance::new` that the selection claims
need: the file list and the list-state selection. -/
structure SessionSel where
  files : List String
  sel : Option Nat
  deriving DecidableEq

/-- `Instance::new` (lines 142–169): whatever the file list is — also
when it is empty — the constructor runs
`instance.list_state.select(Some(0))` unconditionally. -/
def initSession (files : List String) : SessionSel :=
  { files := files, sel := some 0 }

/-! Supporting lemmas. -/

/-- Wrapping subtraction of `1` is plain subtraction for positive
in-range values. -/
theorem usizeSub_one (n : Nat) (h1 : 0 < n) (h2 : n ≤ USIZE) :
    usizeSub n 1 = n - 1 := by
  unfold usizeSub USIZE at *
  omega

/-- `enumFind` returns an index between the start counter and the start
counter plus the list length. -/
theorem enumFind_some (p : String → Bool) :
    ∀ (l : List String) (i j : Nat), enumFind p l i = some j →
      i ≤ j ∧ j < i + l.length := by
  intro l
  induction l with
  | nil => intro i j h; simp [enumFind] at h
  | cons f fs ih =>
    intro i j h
    by_cases hp : p f = true
    · rw [enumFind, if_pos hp] at h
      have : i = j := by simpa using h
      simp [List.length_cons]
      omega
    · rw [enumFind, if_neg hp] at h
      have := ih (i + 1) j h
      simp [List.length_cons]
      omega

/-- An `enumFind` from counter `0` yields a valid index. -/
theorem enumFind_lt_length (p : String → Bool) (l : List String) (j : Nat)
    (h : enumFind p l 0 = some j) : j < l.length := by
  have := enumFind_some p l 0 j h
  omega

/-- A guarded `nthS` read produces a list element. -/
theorem nthS_mem : ∀ (l : List String) (i : Nat), i < l.length → nthS l i ∈ l := by
  intro l
  induction l with
  | nil => intro i h; simp at h
  | cons f fs ih =>
    intro i h
    cases i with
    | zero =>
      rw [nthS, List.getD_cons_zero]
      exact List.mem_cons_self f fs
    | succ m =>
      rw [nthS, List.getD_cons_succ]
      have hm : m < fs.length := by
        simp [List.length_cons] at h
        omega
      exact List.mem_cons_of_mem f (ih m hm)

/-- Every list element is a guarded `nthS` read. -/
theorem mem_nthS : ∀ (l : List String) (f : String), f ∈ l →
    ∃ i, i < l.length ∧ nthS l i = f := by
  intro l
  induction l with
  | nil => intro f h; simp at h
  | cons g gs ih =>
    intro f h
    rcases List.mem_cons.mp h with h1 | h2
    · refine ⟨0, by simp, ?_⟩
      rw [nthS, List.getD_cons_zero, h1]
    · obtain ⟨i, hi, hnth⟩ := ih f h2
      refine ⟨i + 1, by simp [List.length_cons]; omega, ?_⟩
      rw [nthS, List.getD_cons_succ]
      exact hnth

/-- While `findFuel` has produced no answer, every inspected element
failed the predicate. -/
theorem findFuel_none_scan (files : List String) (p : String → Bool)
    (hn : files.length ≠ 0) :
    ∀ (fuel pos : Nat), findFuel files p pos fuel = none →
      ∀ k, k < fuel → p (nthS files ((pos + k) % files.length)) = false := by
  intro fuel
  induction fuel with
  | zero => intro pos h k hk; omega
  | succ m ih =>
    intro pos h k hk
    rw [findFuel, if_neg hn] at h
    by_cases hp : p (nthS files (pos % files.length)) = true
    · rw [if_pos hp] at h
      exact absurd h (by simp)
    · rw [if_neg hp] at h
      cases k with
      | zero =>
        simpa using Bool.not_eq_true _ ▸ hp
      | succ k2 =>
        have := ih (pos + 1) h k2 (by omega)
        rw [show pos + (k2 + 1) = pos + 1 + k2 by omega]
        exact this

/-- When no list element satisfies the predicate, the cycled scan never
produces an answer, at any fuel: the Rust `find` call loops forever. -/
theorem noMatch_findFuel_none (files : List String) (p : String → Bool)
    (hall : ∀ f ∈ files, p f = false) :
    ∀ (fuel pos : Nat), findFuel files p pos fuel = none := by
  intro fuel
  induction fuel with
  | zero => intro pos; rfl
  | succ m ih =>
    intro pos
    rw [findFuel]
    by_cases hn : files.length = 0
    · rw [if_pos hn]
    · rw [if_neg hn]
      have hmem : nthS files (pos % files.length) ∈ files :=
        nthS_mem files _ (Nat.mod_lt _ (Nat.pos_of_ne_zero hn))
      simp [hall _ hmem, ih]

/-- Characterization of a successful `findFuel` scan: the produced index
is valid, matches, and is the first match in cyclic scan order. -/
theorem findFuel_some_spec (files : List String) (p : String → Bool) :
    ∀ (fuel pos j : Nat), findFuel files p pos fuel = some j →
      j < files.length ∧ p (nthS files j) = true ∧
      ∃ k, k < fuel ∧ j = (pos + k) % files.length ∧
        ∀ m, m < k → p (nthS files ((pos + m) % files.length)) = false := by
  intro fuel
  induction fuel with
  | zero => intro pos j h; simp [findFuel] at h
  | succ fm ih =>
    intro pos j h
    rw [findFuel] at h
    by_cases hn : files.length = 0
    · rw [if_pos hn] at h
      exact absurd h (by simp)
    · rw [if_neg hn] at h
      by_cases hp : p (nthS files (pos % files.length)) = true
      · rw [if_pos hp] at h
        have hj : j = pos % files.length := by simpa using h.symm
        subst hj
        exact ⟨Nat.mod_lt _ (Nat.pos_of_ne_zero hn), hp, 0, by omega, by simp, by omega⟩
      · rw [if_neg hp] at h
        obtain ⟨hlt, hpj, k, hk, hjk, hmin⟩ := ih (pos + 1) j h
        refine ⟨hlt, hpj, k + 1, by omega, ?_, ?_⟩
        · rw [hjk]; congr 1; omega
        · intro m hm
          cases m with
          | zero =>
            simpa using Bool.not_eq_true _ ▸ hp
          | succ m2 =>
            have := hmin m2 (by omega)
            rw [show pos + (m2 + 1) = pos + 1 + m2 by omega]
            exact this

/-- Residues of one period of consecutive positions cover every index. -/
theorem exists_shift (n a m : Nat) (hn : 0 < n) (hm : m < n) :
    ∃ k, k < n ∧ (a + k) % n = m := by
  rcases le_or_lt (a % n) m with h | h
  · refine ⟨m - a % n, by omega, ?_⟩
    rw [Nat.add_mod, Nat.mod_eq_of_lt (show m - a % n < n by omega)]
    rw [Nat.add_sub_cancel' h]
    exact Nat.mod_eq_of_lt hm
  · refine ⟨n + m - a % n, by have := Nat.mod_lt a hn; omega, ?_⟩
    rw [Nat.add_mod, Nat.mod_eq_of_lt (show n + m - a % n < n by have := Nat.mod_lt a hn; omega)]
    rw [show a % n + (n + m - a % n) = n + m by have := Nat.mod_lt a hn; omega, Nat.add_mod_left]
    exact Nat.mod_eq_of_lt hm

/-- If one full period of the cycled scan produces no answer, no element
matches at all — so the `diverge` labelling in `searchConfirm` is exact. -/
theorem findFuel_period_none (files : List String) (p : String → Bool)
    (hn : 0 < files.length) (pos : Nat)
    (h : findFuel files p pos files.length = none) :
    ∀ f ∈ files, p f = false := by
  intro f hf
  obtain ⟨i, hi, hnth⟩ := mem_nthS files f hf
  obtain ⟨k, hk, hak⟩ := exists_shift files.length pos i hn hi
  have hscan := findFuel_none_scan files p (by omega) files.length pos h k hk
  rw [hak] at hscan
  rw [hnth] at hscan
  exact hscan

/-- The prefix test accepts the empty needle. -/
theorem leadMatch_nil (hay : List Char) : leadMatch [] hay = true := by
  cases hay <;> rfl

/-- The substring test accepts the empty needle. -/
theorem hasSub_nil (hay : List Char) : hasSub [] hay = true := by
  cases hay with
  | nil => rfl
  | cons c cs => rw [hasSub, leadMatch_nil]; rfl

/-- Every path matches the empty search buffer. -/
theorem searchPred_empty (file : String) : searchPred "" file = true := by
  have h : lowerChars "" = [] := rfl
  rw [searchPred, h]
  exact hasSub_nil _

/-! Claim theorems. -/

/-- C8: the focus state machine starts in the track-list region, the
focus-advance key steps cyclically through track list, volume, control
and search in that order, applying focus-advance four times from any
state is the identity, and no key other than focus-advance changes the
focus state. -/
theorem C8_focus_cycle :
    cursorDefault = CursorState.musicList
  ∧ overflowing_next CursorState.musicList = CursorState.volume
  ∧ overflowing_next CursorState.volume = CursorState.control
  ∧ overflowing_next CursorState.control = CursorState.search
  ∧ overflowing_next CursorState.search = CursorState.musicList
  ∧ (∀ c, overflowing_next (overflowing_next (overflowing_next
      (overflowing_next c))) = c)
  ∧ (∀ c k, k ≠ GKey.tab → cursorAfterKey c k = c) := by
  refine ⟨rfl, rfl, rfl, rfl, rfl, ?_, ?_⟩
  · intro c; cases c <;> rfl
  · intro c k hk
    cases k with
    | quit => rfl
    | tab => exact absurd rfl hk
    | space => rfl
    | other => rfl

/-- Witness for C8 at a concrete focus state and non-advance key. -/
theorem C8_focus_cycle_witness :
    cursorAfterKey CursorState.volume GKey.space = CursorState.volume :=
  C8_focus_cycle.2.2.2.2.2.2 CursorState.volume GKey.space (by decide)

/-- C10: whenever either of the two successive position samples is
unavailable, `is_paused` reports paused, and the play/pause toggle then
issues a `play()` command. -/
theorem C10_idle_paused (s1 s2 : Option Nat) (h : s1 = none ∨ s2 = none) :
    is_paused s1 s2 = true ∧ spaceToggle s1 s2 = EngineCmd.playC := by
  have hp : is_paused s1 s2 = true := by
    rcases h with h | h
    · subst h; rfl
    · subst h; cases s1 <;> rfl
  refine ⟨hp, ?_⟩
  rw [spaceToggle, if_pos hp]

/-- Witness for C10 with no first position sample. -/
theorem C10_idle_paused_witness :
    is_paused none (some 5) = true ∧ spaceToggle none (some 5) = EngineCmd.playC :=
  C10_idle_paused none (some 5) (Or.inl rfl)

/-- C1 counterexample: with only `Shuffle` set, an empty track list and
progress ratio `1`, the completion body panics (`rand % 0`) instead of
loading a uniformly random index in `[0, n)` as the claim states. -/
theorem C1_counterexample :
    completionStep ⟨false, false, false, true⟩ false [] none 7 = Option.none
  ∧ ((∃ i, completionStep ⟨false, false, false, true⟩ false [] none 7
      = some (CAction.shuffleLoad i)) ↔ False) := by
  refine ⟨rfl, ?_, fun h => h.elim⟩
  rintro ⟨i, h⟩
  simp [completionStep] at h

/-- C1 (amended): when the progress ratio is not `1` nothing happens;
when it equals `1`, exactly one completion rule fires, chosen by
priority over the four toggles — `RepeatTrack` replays without
reloading (winning in particular over `Sequential`), otherwise
`Sequential` runs the sequential-advance rule, otherwise `Shuffle` loads
a uniformly random index in `[0, n)` on a non-empty list and panics on
an empty one, otherwise exit-when-idle terminates the loop, otherwise
nothing changes. -/
theorem C1_completion_priority (pos dur : Option Nat) (ap : AutoplayState)
    (nr : Bool) (files : List String) (uri : Option String) (r : Nat) :
    (current_progress pos dur ≠ 1 →
      completionPhase pos dur ap nr files uri r = some CAction.idle)
  ∧ (current_progress pos dur = 1 →
      completionPhase pos dur ap nr files uri r = completionStep ap nr files uri r)
  ∧ (ap.repeatTrack = true →
      completionStep ap nr files uri r = some CAction.replay)
  ∧ (ap.repeatTrack = false → ap.sequential = true →
      completionStep ap nr files uri r
        = seqLift (sequentialAdvance files ap.repeat_list uri))
  ∧ (ap.repeatTrack = false → ap.sequential = false → ap.shuffle = true →
      0 < files.length →
      completionStep ap nr files uri r = some (CAction.shuffleLoad (r % files.length))
      ∧ r % files.length < files.length)
  ∧ (ap.repeatTrack = false → ap.sequential = false → ap.shuffle = true →
      files.length = 0 →
      completionStep ap nr files uri r = Option.none)
  ∧ (ap.repeatTrack = false → ap.sequential = false → ap.shuffle = false →
      nr = true → completionStep ap nr files uri r = some CAction.exitLoop)
  ∧ (ap.repeatTrack = false → ap.sequential = false → ap.shuffle = false →
      nr = false → completionStep ap nr files uri r = some CAction.idle) := by
  refine ⟨?_, ?_, ?_, ?_, ?_, ?_, ?_, ?_⟩
  · intro h; rw [completionPhase, if_neg h]
  · intro h; rw [completionPhase, if_pos h]
  · intro h1; rw [completionStep, if_pos h1]
  · intro h1 h2; rw [completionStep, if_neg (by simp [h1]), if_pos h2]
  · intro h1 h2 h3 h4
    rw [completionStep, if_neg (by simp [h1]), if_neg (by simp [h2]), if_pos h3,
      if_neg (by omega)]
    exact ⟨rfl, Nat.mod_lt _ h4⟩
  · intro h1 h2 h3 h4
    rw [completionStep, if_neg (by simp [h1]), if_neg (by simp [h2]), if_pos h3,
      if_pos h4]
  · intro h1 h2 h3 h4
    rw [completionStep, if_neg (by simp [h1]), if_neg (by simp [h2]),
      if_neg (by simp [h3]), if_pos h4]
  · intro h1 h2 h3 h4
    rw [completionStep, if_neg (by simp [h1]), if_neg (by simp [h2]),
      if_neg (by simp [h3]), if_neg (by simp [h4])]

/-- Witness for C1: with `RepeatTrack` and `Sequential` both set,
`RepeatTrack` wins and the same track replays. -/
theorem C1_completion_priority_witness :
    completionStep ⟨false, true, true, false⟩ false ["/a"] (some "file:///a") 3
      = some CAction.replay :=
  (C1_completion_priority none none ⟨false, true, true, false⟩ false ["/a"]
      (some "file:///a") 3).2.2.1 rfl

/-- C2 counterexample: with a loaded URI that matches no track, the
sequential completion rule panics (`Option::unwrap` on the failed find)
instead of being the claimed crash-free no-op. -/
theorem C2_counterexample :
    sequentialAdvance ["/a"] false (some "file:///b") = Option.none
  ∧ ((sequentialAdvance ["/a"] false (some "file:///b") = some Option.none)
      ↔ False) := by
  refine ⟨by decide, by decide, fun h => h.elim⟩

/-- C2 (amended): the sequential rule panics when the engine has no URI
or when no track's derived URI equals the loaded URI; when the loaded
URI is found at index `i`, the successor `i + 1` is loaded when in
range, past the end it wraps to index `0` exactly when `RepeatList` is
set, and otherwise nothing is loaded. -/
theorem C2_sequential_rule (files : List String) (rl : Bool) (u : String) :
    sequentialAdvance files rl none = Option.none
  ∧ (enumFind (fun file => mkUri file == u) files 0 = none →
      sequentialAdvance files rl (some u) = Option.none)
  ∧ (∀ i, enumFind (fun file => mkUri file == u) files 0 = some i →
      (i + 1 < files.length →
        sequentialAdvance files rl (some u) = some (some (i + 1)))
      ∧ (files.length ≤ i + 1 → rl = true →
        sequentialAdvance files rl (some u) = some (some 0))
      ∧ (files.length ≤ i + 1 → rl = false →
        sequentialAdvance files rl (some u) = some none)) := by
  refine ⟨rfl, ?_, ?_⟩
  · intro h; rw [sequentialAdvance]; rw [h]
  · intro i h
    have hi : i < files.length := enumFind_lt_length _ _ _ h
    refine ⟨?_, ?_, ?_⟩
    · intro hlt
      have hc : ¬(files.length ≤ i + 1 ∧ rl = true) := fun hh => by omega
      simp only [sequentialAdvance, h, Bool.and_eq_true, decide_eq_true_eq]
      rw [if_neg hc, if_pos hlt]
    · intro hge hrl
      simp only [sequentialAdvance, h, Bool.and_eq_true, decide_eq_true_eq]
      rw [if_pos (show files.length ≤ i + 1 ∧ rl = true from ⟨hge, hrl⟩),
        if_pos (show 0 < files.length by omega)]
    · intro hge hrl
      have hc : ¬(files.length ≤ i + 1 ∧ rl = true) := by
        intro hh
        rw [hrl] at hh
        exact absurd hh.2 (by decide)
      simp only [sequentialAdvance, h, Bool.and_eq_true, decide_eq_true_eq]
      rw [if_neg hc, if_neg (show ¬i + 1 < files.length by omega)]

/-- Witness for C2: loaded URI matching the first of two tracks advances
to the second. -/
theorem C2_sequential_rule_witness :
    sequentialAdvance ["/a", "/b"] false (some "file:///a") = some (some 1) :=
  ((C2_sequential_rule ["/a", "/b"] false "file:///a").2.2 0 (by decide)).1
    (by decide)

/-- C3 counterexample: the random-select key on an empty track list
computes `rand::random::<usize>() % 0` and panics, so it is not a
crash-free no-op. -/
theorem C3_counterexample :
    musicDispatch [] (some 0) 0 MKey.keyr = Option.none
  ∧ ((∃ res, musicDispatch [] (some 0) 0 MKey.keyr = some res) ↔ False) := by
  refine ⟨rfl, ?_, fun h => h.elim⟩
  rintro ⟨res, h⟩
  simp [musicDispatch] at h

/-- C3 (amended): on an empty track list (whose selection is the initial
`Some 0`), the arrow keys, Home and search confirm are crash-free
no-ops, but End wraps `0usize - 1` to an out-of-range index (a debug
build aborts), and random-select, random-select-and-play and
enter-to-play panic (modulo by zero, respectively out-of-bounds
indexing). -/
theorem C3_empty_list (buf : String) (r : Nat) :
    musicDispatch [] (some 0) r MKey.down = some (some 0, none)
  ∧ musicDispatch [] (some 0) r MKey.up = some (some 0, none)
  ∧ musicDispatch [] (some 0) r MKey.left = some (some 0, none)
  ∧ musicDispatch [] (some 0) r MKey.right = some (some 0, none)
  ∧ musicDispatch [] (some 0) r MKey.home = some (some 0, none)
  ∧ musicDispatch [] (some 0) r MKey.kEnd = some (some (USIZE - 1), none)
  ∧ musicDispatch [] (some 0) r MKey.keyr = Option.none
  ∧ musicDispatch [] (some 0) r MKey.keyRBig = Option.none
  ∧ musicDispatch [] (some 0) r MKey.enter = Option.none
  ∧ searchConfirm [] (some 0) buf = SOut.unchanged := by
  refine ⟨rfl, rfl, rfl, rfl, rfl, ?_, rfl, rfl, rfl, rfl⟩
  rw [musicDispatch]
  norm_num [usizeSub, USIZE]

/-- Witness for C3 at a concrete buffer and random draw. -/
theorem C3_empty_list_witness :
    searchConfirm [] (some 0) "abc" = SOut.unchanged :=
  (C3_empty_list "abc" 4).2.2.2.2.2.2.2.2.2

/-- C4 counterexample: searching a non-empty list for a buffer that no
track contains never completes — the cycled scan yields no answer at
any fuel — instead of completing with the selection unchanged. -/
theorem C4_counterexample :
    (List.all ["/a"] (fun f => !searchPred "z" f) = true)
  ∧ (∀ fuel, findFuel ["/a"] (searchPred "z") 1 fuel = Option.none)
  ∧ ((∃ fuel j, findFuel ["/a"] (searchPred "z") 1 fuel = some j) ↔ False) := by
  have hall : ∀ f ∈ ["/a"], searchPred "z" f = false := by decide
  have hnone := noMatch_findFuel_none ["/a"] (searchPred "z") hall
  refine ⟨by decide, fun fuel => hnone fuel 1, ?_, fun h => h.elim⟩
  rintro ⟨fuel, j, h⟩
  rw [hnone fuel 1] at h
  exact Option.noConfusion h

/-- C4 (amended): for a non-empty list, confirming the search scans
cyclically from `(i + 1) mod n`; an empty buffer selects exactly
`(i + 1) mod n`; a produced index is the first cyclic case-insensitive
substring match and the cursor moves there; and when no track matches,
the scan never completes (the claim said it completes with the
selection unchanged). -/
theorem C4_search_semantics (files : List String) (s : Nat) (buf : String)
    (hn : 0 < files.length) :
    (buf = "" → findFuel files (searchPred buf) (s + 1) files.length
      = some ((s + 1) % files.length))
  ∧ (∀ j, findFuel files (searchPred buf) (s + 1) files.length = some j →
      searchConfirm files (some s) buf = SOut.moveTo j
      ∧ j < files.length ∧ searchPred buf (nthS files j) = true
      ∧ ∃ k, k < files.length ∧ j = (s + 1 + k) % files.length
        ∧ ∀ m, m < k →
            searchPred buf (nthS files ((s + 1 + m) % files.length)) = false)
  ∧ ((∀ f, f ∈ files → searchPred buf f = false) →
      (∀ fuel, findFuel files (searchPred buf) (s + 1) fuel = Option.none)
      ∧ searchConfirm files (some s) buf = SOut.diverge) := by
  refine ⟨?_, ?_, ?_⟩
  · intro hb
    subst hb
    obtain ⟨m, hm⟩ : ∃ m, files.length = m + 1 := ⟨files.length - 1, by omega⟩
    rw [hm, findFuel, if_neg (by omega), if_pos (searchPred_empty _)]
    rw [hm]
  · intro j hj
    obtain ⟨hlt, hpj, k, hk, hjk, hmin⟩ :=
      findFuel_some_spec files (searchPred buf) files.length (s + 1) j hj
    refine ⟨?_, hlt, hpj, k, hk, hjk, hmin⟩
    rw [searchConfirm, if_neg (by omega), hj]
  · intro hall
    have hnone := noMatch_findFuel_none files (searchPred buf) hall
    refine ⟨fun fuel => hnone fuel (s + 1), ?_⟩
    rw [searchConfirm, if_neg (by omega), hnone files.length (s + 1)]

/-- Witness for C4: confirming an empty buffer on a singleton list
selects the next index cyclically. -/
theorem C4_search_semantics_witness :
    findFuel ["a"] (searchPred "") (0 + 1) (List.length ["a"])
      = some ((0 + 1) % List.length ["a"]) :=
  (C4_search_semantics ["a"] 0 "" (by decide)).1 rfl

/-- C5 counterexample: with six tracks and selection `0`, the backward
page-step selects index `5` (the last index), not
`(0 - 5 + 6) mod 6 = 1` as the claim's wrap formula states. -/
theorem C5_counterexample :
    musicDispatch ["a", "b", "c", "d", "e", "f"] (some 0) 0 MKey.left
      = some (some 5, none)
  ∧ ((musicDispatch ["a", "b", "c", "d", "e", "f"] (some 0) 0 MKey.left
      = some (some ((0 + 6 - 5) % 6), none)) ↔ False) := by
  refine ⟨by decide, by decide, fun h => h.elim⟩

/-- C5 (amended): when `n > 5` and the selection is a valid index `i`,
the forward page-step selects `(i + 5) mod n`, and the backward
page-step selects `i - 5` when `i > 4` and the last index `n - 1`
otherwise; when `n ≤ 5` both page-step keys are no-ops. -/
theorem C5_page_step (files : List String) (i r : Nat) :
    (5 < files.length → i < files.length →
      musicDispatch files (some i) r MKey.right
        = some (some ((i + 5) % files.length), none)
      ∧ (i + 5) % files.length < files.length
      ∧ musicDispatch files (some i) r MKey.left
        = some (some (if 4 < i then (i - 5) % files.length
            else files.length - 1), none))
  ∧ (files.length ≤ 5 →
      musicDispatch files (some i) r MKey.right = some (some i, none)
      ∧ musicDispatch files (some i) r MKey.left = some (some i, none)) := by
  refine ⟨?_, ?_⟩
  · intro h5 hi
    refine ⟨?_, Nat.mod_lt _ (by omega), ?_⟩
    · rw [musicDispatch, if_pos h5]
    · rw [musicDispatch, if_pos h5]
  · intro h5
    constructor
    · rw [musicDispatch, if_neg (by omega)]
    · rw [musicDispatch, if_neg (by omega)]

/-- Witness for C5: forward page-step from index `5` in a six-track list
wraps to index `4`. -/
theorem C5_page_step_witness :
    musicDispatch ["a", "b", "c", "d", "e", "f"] (some 5) 0 MKey.right
      = some (some ((5 + 5) % List.length ["a", "b", "c", "d", "e", "f"]), none) :=
  ((C5_page_step ["a", "b", "c", "d", "e", "f"] 5 0).1 (by decide) (by decide)).1

/-- Once the latch has fired, no later `play_path` call writes the
volume again, and the latch stays set. -/
theorem runPlays_latched (v : Option ℚ) :
    ∀ paths : List String, (runPlays v true paths).1 = true
      ∧ List.countP isSetVol (runPlays v true paths).2 = 0 := by
  intro paths
  induction paths with
  | nil => exact ⟨rfl, rfl⟩
  | cons p ps ih =>
    cases v with
    | none =>
      simpa [runPlays, play_path, List.countP_append, isSetVol] using ih
    | some q =>
      simpa [runPlays, play_path, List.countP_append, isSetVol] using ih

/-- Without a configured override no `play_path` call ever writes the
volume. -/
theorem runPlays_none_noVol :
    ∀ (paths : List String) (once : Bool),
      List.countP isSetVol (runPlays none once paths).2 = 0 := by
  intro paths
  induction paths with
  | nil => intro once; rfl
  | cons p ps ih =>
    intro once
    simp [runPlays, play_path, List.countP_append, isSetVol, ih]

/-- Every `play_path` call with a configured override sleeps exactly
once, regardless of the latch. -/
theorem runPlays_sleeps (q : ℚ) :
    ∀ (paths : List String) (once : Bool),
      List.countP isSleep (runPlays (some q) once paths).2 = paths.length := by
  intro paths
  induction paths with
  | nil => intro once; rfl
  | cons p ps ih =>
    intro once
    cases once with
    | true => simp [runPlays, play_path, List.countP_append, isSleep, ih]
    | false => simp [runPlays, play_path, List.countP_append, isSleep, ih]

/-- C6 counterexample: with a known position of `10` seconds and an
unknown duration, the fine backward seek issues `seek(9)` — it is not
the no-op the claim requires for unknown durations. -/
theorem C6_counterexample :
    seekStep (some 10) none SeekKey.left = some 9
  ∧ ((seekStep (some 10) none SeekKey.left = Option.none) ↔ False) := by
  refine ⟨rfl, by decide, fun h => h.elim⟩

/-- C6 (amended): forward and extreme-end seeks are no-ops when the
duration is unknown, backward seeks are no-ops when the position is
unknown (but not when only the duration is), Home always seeks to `0`;
with both samples known the fine step is `1 s`, the coarse step `15 s`,
the extremes exactly `0` and the duration, and whenever the position is
at most the duration every issued seek stays within `[0, duration]`. -/
theorem C6_seek_rules (pos dur : Option Nat) (p d : Nat) :
    (seekStep pos none SeekKey.right = Option.none
      ∧ seekStep pos none SeekKey.up = Option.none
      ∧ seekStep pos none SeekKey.kEnd = Option.none)
  ∧ (seekStep none dur SeekKey.left = Option.none
      ∧ seekStep none dur SeekKey.down = Option.none)
  ∧ seekStep pos dur SeekKey.home = some 0
  ∧ (seekStep (some p) (some d) SeekKey.left = some (p - 1)
      ∧ seekStep (some p) (some d) SeekKey.right = some (Nat.min d (p + 1))
      ∧ seekStep (some p) (some d) SeekKey.down = some (p - 15)
      ∧ seekStep (some p) (some d) SeekKey.up = some (Nat.min d (p + 15))
      ∧ seekStep (some p) (some d) SeekKey.kEnd = some d)
  ∧ (p ≤ d → ∀ sk t, seekStep (some p) (some d) sk = some t → t ≤ d) := by
  refine ⟨⟨?_, ?_, rfl⟩, ⟨rfl, rfl⟩, rfl,
    ⟨by rw [seekStep]; congr 1; exact Nat.max_eq_right (Nat.zero_le _), rfl,
      by rw [seekStep]; congr 1; exact Nat.max_eq_right (Nat.zero_le _), rfl, rfl⟩,
    ?_⟩
  · cases pos <;> rfl
  · cases pos <;> rfl
  · intro hpd sk t ht
    cases sk with
    | left =>
      rw [seekStep] at ht
      have h := Option.some.inj ht
      have h2 : Nat.max 0 (p - 1) = p - 1 := Nat.max_eq_right (Nat.zero_le _)
      omega
    | right =>
      rw [seekStep] at ht
      have h := Option.some.inj ht
      exact le_trans h.symm.le (Nat.min_le_left d (p + 1))
    | down =>
      rw [seekStep] at ht
      have h := Option.some.inj ht
      have h2 : Nat.max 0 (p - 15) = p - 15 := Nat.max_eq_right (Nat.zero_le _)
      omega
    | up =>
      rw [seekStep] at ht
      have h := Option.some.inj ht
      exact le_trans h.symm.le (Nat.min_le_left d (p + 15))
    | home =>
      rw [seekStep] at ht
      have h := Option.some.inj ht
      omega
    | kEnd =>
      rw [seekStep] at ht
      have h := Option.some.inj ht
      omega

/-- Witness for C6: from position `3` of a `10`-second track, the coarse
forward seek lands within the duration. -/
theorem C6_seek_rules_witness :
    10 ≤ 10 ∧ seekStep (some 3) (some 10) SeekKey.up = some 10 :=
  ⟨(C6_seek_rules (some 3) (some 10) 3 10).2.2.2.2 (by decide) SeekKey.up 10
    (by decide), by decide⟩

/-- C7 counterexample: two `play_path` calls on a volume-override run
block for the settle delay twice — the delay is per call, not once per
process lifetime as claimed. -/
theorem C7_counterexample :
    List.countP isSleep (runPlays (some 1) false ["/a", "/b"]).2 = 2
  ∧ ((List.countP isSleep (runPlays (some 1) false ["/a", "/b"]).2 ≤ 1)
      ↔ False) := by
  refine ⟨by decide, by decide, fun h => h.elim⟩

/-- C7 (amended): with a startup volume override, across every sequence
of `play_path` calls the volume is written to the engine at most once
(never once the latch is set, and never without an override), but the
settle delay blocks once per call — `paths.length` times, not at most
once. -/
theorem C7_volume_latch (q : ℚ) (once : Bool) (paths : List String) :
    List.countP isSetVol (runPlays (some q) once paths).2 ≤ 1
  ∧ List.countP isSleep (runPlays (some q) once paths).2 = paths.length
  ∧ List.countP isSetVol (runPlays none once paths).2 = 0
  ∧ List.countP isSetVol (runPlays (some q) true paths).2 = 0 := by
  refine ⟨?_, runPlays_sleeps q paths once, runPlays_none_noVol paths once,
    (runPlays_latched (some q) paths).2⟩
  cases once with
  | true => rw [(runPlays_latched (some q) paths).2]; omega
  | false =>
    cases paths with
    | nil => simp [runPlays]
    | cons p ps =>
      have h0 := (runPlays_latched (some q) ps).2
      simp [runPlays, play_path, List.countP_append, isSetVol, h0]

/-- Witness for C7 at a concrete override and call sequence. -/
theorem C7_volume_latch_witness :
    List.countP isSetVol (runPlays (some 1) false ["/a", "/b"]).2 ≤ 1 :=
  (C7_volume_latch 1 false ["/a", "/b"]).1

/-- C9 counterexample: `Instance::new` selects index `0` even for an
empty track list, so the cursor is not `None` when the list is empty. -/
theorem C9_counterexample :
    (initSession []).sel = some 0
  ∧ (((initSession []).sel = Option.none) ↔ False) := by
  refine ⟨rfl, by decide, fun h => h.elim⟩

/-- C9 (amended): initialization always selects index `0` — also on an
empty list, where the claimed `None` never occurs; on a non-empty list
(of machine-representable length) the initial selection is valid, and
every track-list key and the search confirm preserve validity of the
selection in `[0, n)`. -/
theorem C9_selection_valid (files : List String) (sel : Option Nat)
    (r : Nat) (buf : String) (hn : 0 < files.length)
    (hmax : files.length ≤ USIZE)
    (hsel : ∀ i, sel = some i → i < files.length) :
    (∀ j, (initSession files).sel = some j → j < files.length)
  ∧ (∀ mk sel2 pl, musicDispatch files sel r mk = some (sel2, pl) →
      ∀ j, sel2 = some j → j < files.length)
  ∧ (∀ j, searchConfirm files sel buf = SOut.moveTo j → j < files.length) := by
  refine ⟨?_, ?_, ?_⟩
  · intro j hj
    have : (0 : Nat) = j := by simpa [initSession] using hj
    omega
  · intro mk sel2 pl hd j hj
    have hsub : usizeSub files.length 1 = files.length - 1 :=
      usizeSub_one files.length hn hmax
    cases mk with
    | down =>
      cases sel with
      | none =>
        rw [musicDispatch] at hd
        cases hd
        have : (0 : Nat) = j := by simpa using hj
        omega
      | some i =>
        have hi := hsel i rfl
        by_cases h1 : 1 < files.length
        · rw [musicDispatch, if_pos h1] at hd
          cases hd
          have : (i + 1) % files.length = j := by simpa using hj
          have := Nat.mod_lt (i + 1) hn
          omega
        · rw [musicDispatch, if_neg h1] at hd
          cases hd
          have : i = j := by simpa using hj
          omega
    | up =>
      cases sel with
      | none =>
        rw [musicDispatch] at hd
        cases hd
        have : usizeSub files.length 1 = j := by simpa using hj
        omega
      | some i =>
        have hi := hsel i rfl
        by_cases h1 : 1 < files.length
        · rw [musicDispatch, if_pos h1] at hd
          cases hd
          by_cases h0 : 0 < i
          · rw [if_pos h0] at hj
            have : (i - 1) % files.length = j := by simpa using hj
            have := Nat.mod_lt (i - 1) hn
            omega
          · rw [if_neg h0] at hj
            have : files.length - 1 = j := by simpa using hj
            omega
        · rw [musicDispatch, if_neg h1] at hd
          cases hd
          have : i = j := by simpa using hj
          omega
    | left =>
      cases sel with
      | none =>
        rw [musicDispatch] at hd
        cases hd
        have : usizeSub files.length 1 = j := by simpa using hj
        omega
      | some i =>
        have hi := hsel i rfl
        by_cases h5 : 5 < files.length
        · rw [musicDispatch, if_pos h5] at hd
          cases hd
          by_cases h4 : 4 < i
          · rw [if_pos h4] at hj
            have : (i - 5) % files.length = j := by simpa using hj
            have := Nat.mod_lt (i - 5) hn
            omega
          · rw [if_neg h4] at hj
            have : files.length - 1 = j := by simpa using hj
            omega
        · rw [musicDispatch, if_neg h5] at hd
          cases hd
          have : i = j := by simpa using hj
          omega
    | right =>
      cases sel with
      | none =>
        rw [musicDispatch] at hd
        cases hd
        have : (0 : Nat) = j := by simpa using hj
        omega
      | some i =>
        have hi := hsel i rfl
        by_cases h5 : 5 < files.length
        · rw [musicDispatch, if_pos h5] at hd
          cases hd
          have : (i + 5) % files.length = j := by simpa using hj
          have := Nat.mod_lt (i + 5) hn
          omega
        · rw [musicDispatch, if_neg h5] at hd
          cases hd
          have : i = j := by simpa using hj
          omega
    | home =>
      rw [musicDispatch] at hd
      cases hd
      have : (0 : Nat) = j := by simpa using hj
      omega
    | kEnd =>
      rw [musicDispatch] at hd
      cases hd
      have : usizeSub files.length 1 = j := by simpa using hj
      omega
    | keyr =>
      rw [musicDispatch, if_neg (by omega)] at hd
      cases hd
      have : r % files.length = j := by simpa using hj
      have := Nat.mod_lt r hn
      omega
    | keyRBig =>
      rw [musicDispatch, if_neg (by omega)] at hd
      cases hd
      have : r % files.length = j := by simpa using hj
      have := Nat.mod_lt r hn
      omega
    | enter =>
      cases sel with
      | none =>
        rw [musicDispatch] at hd
        cases hd
        exact absurd hj (by simp)
      | some i =>
        have hi := hsel i rfl
        rw [musicDispatch, if_pos hi] at hd
        cases hd
        have : i = j := by simpa using hj
        omega
  · intro j hjm
    cases sel with
    | none => exact absurd hjm (by simp [searchConfirm])
    | some s =>
      rw [searchConfirm, if_neg (by omega)] at hjm
      cases hfind : findFuel files (searchPred buf) (s + 1) files.length with
      | none => rw [hfind] at hjm; exact absurd hjm (by simp)
      | some j2 =>
        rw [hfind] at hjm
        have hj2 : j2 = j := by simpa using hjm
        have := (findFuel_some_spec files (searchPred buf) files.length (s + 1)
          j2 hfind).1
        omega

/-- Witness for C9 at a concrete singleton session. -/
theorem C9_selection_valid_witness :
    0 < List.length ["x"] ∧ initSession ["x"] = { files := ["x"], sel := some 0 } :=
  ⟨(C9_selection_valid ["x"] (some 0) 0 "" (by decide) (by decide)
      (by intro i h; cases h; decide)).1 0 rfl, rfl⟩

end Musikbox
